import Mathlib

/-!
Verification of the kilo text-viewer core (src/kilo.c).

The C program is shallowly embedded: rows are lists of characters, the global
editor state `struct editorConfig E` becomes the structure `EState`, and each C
function that the claims mention (`editorRowCxToRx`, `editorUpdateRow`,
`editorAppendRow`, `editorOpen`, `editorScroll`, `editorMoveCursor`,
`editorProcessKeypress`, `editorReadKey`) becomes a Lean function of the same
name.  All integer quantities in the program are non-negative in every state
the program reaches, so they are modelled as `Nat`; wherever a C subtraction
could go below zero the surrounding guard is reproduced so the `Nat`
truncation coincides with the C `int` value (this is noted at each site).
-/

namespace Kilo

/-- `KILO_TAB_STOP` from kilo.c. -/
def kiloTabStop : Nat := 8

/-- `erow`: one text row.  The C struct stores `size`/`rsize` alongside the
buffers; they always equal the buffer lengths, so here they are derived. -/
structure Erow where
  chars : List Char
  render : List Char
deriving Repr, DecidableEq

/-- `row->size`: length of the raw content. -/
def Erow.size (r : Erow) : Nat := r.chars.length

/-- `row->rsize`: length of the rendered form. -/
def Erow.rsize (r : Erow) : Nat := r.render.length

/-- A row with empty content, used as the out-of-range default. -/
def erowEmpty : Erow := { chars := [], render := [] }

/-- The loop body of `editorRowCxToRx`: walk the characters, and for a tab do
`rx += (KILO_TAB_STOP - 1) - (rx % KILO_TAB_STOP); rx++`, else `rx++`.
(The subtraction is exact in `Nat` because `rx % 8 ≤ 7`.) -/
def cxToRxAux : List Char → Nat → Nat
  | [], rx => rx
  | c :: cs, rx =>
      cxToRxAux cs
        (if c = '\t' then rx + (kiloTabStop - 1 - rx % kiloTabStop) + 1 else rx + 1)

/-- `editorRowCxToRx(row, cx)` (kilo.c lines 226-235): convert a content column
into a rendered column by scanning `chars[0..cx)`.  The C code reads
`row->chars[j]` for `j < cx`, so it is meaningful for `cx ≤ row.size`;
the embedding scans the first `cx` characters. -/
def editorRowCxToRx (row : Erow) (cx : Nat) : Nat :=
  cxToRxAux (row.chars.take cx) 0

/-- One character of the render loop of `editorUpdateRow`: a tab emits one
space and then spaces until `idx % KILO_TAB_STOP == 0`, i.e. exactly
`KILO_TAB_STOP - idx % KILO_TAB_STOP` spaces in total; any other character is
copied. -/
def renderStep (acc : List Char) (c : Char) : List Char :=
  if c = '\t' then acc ++ List.replicate (kiloTabStop - acc.length % kiloTabStop) ' '
  else acc ++ [c]

/-- `editorUpdateRow(row)` (kilo.c lines 237-258): regenerate `row->render`
from `row->chars`. -/
def editorUpdateRow (row : Erow) : Erow :=
  { row with render := row.chars.foldl renderStep [] }

/-- `editorAppendRow(s, len)` (kilo.c lines 260-275): append a fresh row whose
content is `s` and whose render is produced by `editorUpdateRow`. -/
def editorAppendRow (rows : List Erow) (s : List Char) : List Erow :=
  rows ++ [editorUpdateRow { chars := s, render := [] }]

/-- The `while (linelen > 0 && (line[linelen-1] == '\n' || ...)) linelen--;`
loop of `editorOpen`: drop every trailing newline or carriage-return. -/
def stripTrailingNLCR (l : List Char) : List Char :=
  (l.reverse.dropWhile (fun c => c = '\n' || c = '\r')).reverse

/-- The lines `getline` yields on a byte stream: each line keeps its
terminating newline; a final unterminated chunk is still a line. -/
def getLines : List Char → List (List Char)
  | [] => []
  | c :: rest =>
      if c = '\n' then ['\n'] :: getLines rest
      else
        match getLines rest with
        | [] => [[c]]
        | l :: ls => (c :: l) :: ls

/-- `editorOpen` (kilo.c lines 278-301) restricted to its row-building effect:
for each line in file order, strip trailing CR/LF and append one row. -/
def editorOpenRows (content : List Char) : List Erow :=
  (getLines content).foldl
    (fun rows line => editorAppendRow rows (stripTrailingNLCR line)) []

/-- The decoded result of `editorReadKey`: the `editorKey` enum values, or the
byte itself (`char c`); a bare escape is `char '\x1b'`. -/
inductive EKey where
  | arrowLeft | arrowRight | arrowUp | arrowDown
  | delKey | homeKey | endKey | pageUp | pageDown
  | char (c : Char)
deriving Repr, DecidableEq

/-- One `read(STDIN_FILENO, ..., 1)` on the pending-input model: `none` is a
timed-out read (`read` returned something other than 1). -/
def readByte : List (Option Char) → Option Char × List (Option Char)
  | [] => (none, [])
  | r :: rest => (r, rest)

/-- `editorReadKey()` (kilo.c lines 111-182).  The initial `while` loop blocks
until a first byte `c` arrives, so `c` is a parameter; `pending` models the
results of the subsequent non-blocking reads in order.  Every timed-out read
inside an escape sequence returns the bare escape byte. -/
def editorReadKey (c : Char) (pending : List (Option Char)) : EKey :=
  if c = '\x1b' then
    match readByte pending with
    | (none, _) => .char '\x1b'
    | (some s0, p1) =>
      match readByte p1 with
      | (none, _) => .char '\x1b'
      | (some s1, p2) =>
        if s0 = '[' then
          if '0' ≤ s1 ∧ s1 ≤ '9' then
            match readByte p2 with
            | (none, _) => .char '\x1b'
            | (some s2, _) =>
              if s2 = '~' then
                if s1 = '1' then .homeKey
                else if s1 = '3' then .delKey
                else if s1 = '4' then .endKey
                else if s1 = '5' then .pageUp
                else if s1 = '6' then .pageDown
                else if s1 = '7' then .homeKey
                else if s1 = '8' then .endKey
                else .char '\x1b'
              else .char '\x1b'
          else
            if s1 = 'A' then .arrowUp
            else if s1 = 'B' then .arrowDown
            else if s1 = 'C' then .arrowRight
            else if s1 = 'D' then .arrowLeft
            else if s1 = 'H' then .homeKey
            else if s1 = 'F' then .endKey
            else .char '\x1b'
        else if s0 = 'O' then
          if s1 = 'H' then .homeKey
          else if s1 = 'F' then .endKey
          else .char '\x1b'
        else .char '\x1b'
  else .char c

/-- `struct editorConfig` restricted to the fields the core state machine
uses (the status-message fields and terminal attributes are I/O collaborators
outside the claims). -/
structure EState where
  cx : Nat
  cy : Nat
  rx : Nat
  rowoff : Nat
  coloff : Nat
  screenRows : Nat
  screenCols : Nat
  rows : List Erow
deriving Repr, DecidableEq

/-- `E.row[i]`, total via a default. -/
def rowAt (rows : List Erow) (i : Nat) : Erow := rows.getD i erowEmpty

/-- `row = (cy >= numrows) ? NULL : &row[cy]; rowlen = row ? row->size : 0`. -/
def rowLen (rows : List Erow) (i : Nat) : Nat :=
  if i < rows.length then (rowAt rows i).size else 0

/-- The `E.rx` computation at the top of `editorScroll`. -/
def scrollRx (s : EState) : Nat :=
  if s.cy < s.rows.length then editorRowCxToRx (rowAt s.rows s.cy) s.cx else 0

/-- The two sequential `E.rowoff` updates of `editorScroll`.  In the second
branch `cy ≥ rowoff' + screenRows`, so `cy + 1 - screenRows` equals the C
value `cy - screenRows + 1`. -/
def scrollRowoff (s : EState) : Nat :=
  let ro1 := if s.cy < s.rowoff then s.cy else s.rowoff
  if ro1 + s.screenRows ≤ s.cy then s.cy + 1 - s.screenRows else ro1

/-- The two sequential `E.coloff` updates of `editorScroll` against `E.rx`. -/
def scrollColoff (s : EState) : Nat :=
  let co1 := if scrollRx s < s.coloff then scrollRx s else s.coloff
  if co1 + s.screenCols ≤ scrollRx s then scrollRx s + 1 - s.screenCols else co1

/-- `editorScroll()` (kilo.c lines 326-349). -/
def editorScroll (s : EState) : EState :=
  { s with rx := scrollRx s, rowoff := scrollRowoff s, coloff := scrollColoff s }

/-- The `switch (key)` of `editorMoveCursor`, producing the new `(cx, cy)`
before the trailing clamp. -/
def moveCursorCxCy (key : EKey) (s : EState) : Nat × Nat :=
  match key with
  | .arrowLeft =>
      if s.cx ≠ 0 then (s.cx - 1, s.cy)
      else if 0 < s.cy then ((rowAt s.rows (s.cy - 1)).size, s.cy - 1)
      else (s.cx, s.cy)
  | .arrowRight =>
      if s.cy < s.rows.length ∧ s.cx < (rowAt s.rows s.cy).size then (s.cx + 1, s.cy)
      else if s.cy < s.rows.length ∧ s.cx = (rowAt s.rows s.cy).size then (0, s.cy + 1)
      else (s.cx, s.cy)
  | .arrowUp => if s.cy ≠ 0 then (s.cx, s.cy - 1) else (s.cx, s.cy)
  | .arrowDown => if s.cy < s.rows.length then (s.cx, s.cy + 1) else (s.cx, s.cy)
  | _ => (s.cx, s.cy)

/-- `editorMoveCursor(key)` (kilo.c lines 467-505): the arrow-key switch
followed by the re-clamp `if (E.cx > rowlen) E.cx = rowlen;` against the row
the cursor ends on. -/
def editorMoveCursor (key : EKey) (s : EState) : EState :=
  let p := moveCursorCxCy key s
  let rl := rowLen s.rows p.2
  { s with cx := if rl < p.1 then rl else p.1, cy := p.2 }

/-- The `while (times--) editorMoveCursor(...)` loop of the PageUp/PageDown
case. -/
def moveRepeat (key : EKey) : Nat → EState → EState
  | 0, s => s
  | n + 1, s => moveRepeat key n (editorMoveCursor key s)

/-- `editorProcessKeypress()` (kilo.c lines 507-549) as a state transition.
`Ctrl-Q` exits the process (it performs no state change before `exit(0)`), and
every key with no `case` — including `DEL_KEY` and plain bytes — leaves the
state untouched.  In the PageDown snap `E.cy = E.rowoff + E.screenRows - 1`
the program always has `screenRows ≥ 1`, under which the `Nat` subtraction
equals the C `int` value. -/
def editorProcessKeypress (key : EKey) (s : EState) : EState :=
  match key with
  | .homeKey => { s with cx := 0 }
  | .endKey =>
      if s.cy < s.rows.length then { s with cx := (rowAt s.rows s.cy).size } else s
  | .pageUp => moveRepeat .arrowUp s.screenRows { s with cy := s.rowoff }
  | .pageDown =>
      let cy1 := s.rowoff + s.screenRows - 1
      let cy2 := if s.rows.length < cy1 then s.rows.length else cy1
      moveRepeat .arrowDown s.screenRows { s with cy := cy2 }
  | .arrowUp => editorMoveCursor .arrowUp s
  | .arrowDown => editorMoveCursor .arrowDown s
  | .arrowLeft => editorMoveCursor .arrowLeft s
  | .arrowRight => editorMoveCursor .arrowRight s
  | _ => s

/-- `initEditor()` followed by `editorOpen`: every cursor and offset field is
zero and the rows are the loaded file. -/
def initState (rows : List Erow) (r c : Nat) : EState :=
  { cx := 0, cy := 0, rx := 0, rowoff := 0, coloff := 0,
    screenRows := r, screenCols := c, rows := rows }

/-- One iteration of the `while (1)` loop in `main`: `editorRefreshScreen`
(whose only state effect is `editorScroll`) followed by
`editorProcessKeypress` on the decoded key. -/
def sessionStep (s : EState) (k : EKey) : EState :=
  editorProcessKeypress k (editorScroll s)

/-- Run the session loop over a list of decoded keys. -/
def runSession (s : EState) (ks : List EKey) : EState :=
  ks.foldl sessionStep s

/-- The navigation keys: arrows, Home, End, PageUp, PageDown. -/
def isNavKey : EKey → Bool
  | .arrowLeft | .arrowRight | .arrowUp | .arrowDown
  | .homeKey | .endKey | .pageUp | .pageDown => true
  | _ => false

/-- The cursor-clamp invariant of the spec: `cy` at most the row count and
`cx` at most the length of the current row (`0` past the end). -/
def cursorOK (s : EState) : Prop :=
  s.cy ≤ s.rows.length ∧ s.cx ≤ rowLen s.rows s.cy

/-- The 3-line scenario file of the spec: `"a\tb\n"`, `"short\n"`, `"last\n"`. -/
def scenarioFile : List Char :=
  ['a', '\t', 'b', '\n', 's', 'h', 'o', 'r', 't', '\n', 'l', 'a', 's', 't', '\n']

/-- The row `editorOpen` builds from one already-stripped line. -/
def mkOpenRow (line : List Char) : Erow :=
  editorUpdateRow { chars := stripTrailingNLCR line, render := [] }

/-- A small concrete fixture: the freshly started editor on a one-row file. -/
def demoState : EState :=
  initState [editorUpdateRow { chars := ['h', 'i'], render := [] }] 2 4

/-- A concrete fixture with the cursor at the start of line 2. -/
def wrapState : EState :=
  { cx := 0, cy := 1, rx := 0, rowoff := 0, coloff := 0, screenRows := 5, screenCols := 5,
    rows := [editorUpdateRow { chars := ['a', 'b'], render := [] },
             editorUpdateRow { chars := [], render := [] }] }

/-! ## Basic lemmas about the column conversion -/

theorem cxToRxAux_le (cs : List Char) : ∀ rx : Nat, rx ≤ cxToRxAux cs rx := by
  induction cs with
  | nil => intro rx; exact Nat.le_refl rx
  | cons c cs ih =>
      intro rx
      refine Nat.le_trans ?_ (ih _)
      split <;> omega

theorem cxToRxAux_append (l1 l2 : List Char) :
    ∀ rx : Nat, cxToRxAux (l1 ++ l2) rx = cxToRxAux l2 (cxToRxAux l1 rx) := by
  induction l1 with
  | nil => intro rx; rfl
  | cons c cs ih => intro rx; simp only [List.cons_append, cxToRxAux]; exact ih _

/-! ## C4 and C10: algebraic properties of `editorRowCxToRx` -/

/-- **C4**: `editorRowCxToRx` is monotonically non-decreasing in `cx`; a tab
at content column `cx` advances the rendered column by at least 1 and at most
`KILO_TAB_STOP`, and the rendered column just after the tab is an exact
multiple of `KILO_TAB_STOP`. -/
theorem cxToRx_monotone_and_tabstop (row : Erow) :
    (∀ cx cx' : Nat, cx ≤ cx' → editorRowCxToRx row cx ≤ editorRowCxToRx row cx')
    ∧ (∀ cx : Nat, cx < row.chars.length → row.chars.getD cx ' ' = '\t' →
        editorRowCxToRx row cx + 1 ≤ editorRowCxToRx row (cx + 1)
        ∧ editorRowCxToRx row (cx + 1) ≤ editorRowCxToRx row cx + kiloTabStop
        ∧ editorRowCxToRx row (cx + 1) % kiloTabStop = 0) := by
  constructor
  · intro cx cx' h
    unfold editorRowCxToRx
    have hsplit : row.chars.take cx' = row.chars.take cx ++ (row.chars.drop cx).take (cx' - cx) := by
      rw [← List.take_add]
      congr 1
      omega
    rw [hsplit, cxToRxAux_append]
    exact cxToRxAux_le _ _
  · intro cx hlt htab
    have hsucc : row.chars.take (cx + 1) = row.chars.take cx ++ ['\t'] := by
      rw [List.take_succ]
      congr 1
      rw [List.getElem?_eq_getElem hlt]
      simp only [Option.toList_some, List.cons.injEq, and_true]
      rw [← htab]
      exact (List.getD_eq_getElem row.chars ' ' hlt).symm
    unfold editorRowCxToRx
    rw [hsucc, cxToRxAux_append]
    have hstep : ∀ r : Nat, cxToRxAux ['\t'] r = r + (8 - 1 - r % 8) + 1 := by
      intro r
      simp [cxToRxAux, kiloTabStop]
    rw [hstep]
    set r := cxToRxAux (row.chars.take cx) 0 with hr
    have hmod : r % 8 < 8 := Nat.mod_lt _ (by omega)
    unfold kiloTabStop
    refine ⟨by omega, by omega, ?_⟩
    omega

/-- C4 witness: monotonicity and the tab-advance properties on the row
`"a\tb"`, at the tab at content column 1. -/
theorem cxToRx_monotone_and_tabstop_witness :
    editorRowCxToRx { chars := ['a', '\t', 'b'], render := [] } 1
        ≤ editorRowCxToRx { chars := ['a', '\t', 'b'], render := [] } 2
    ∧ editorRowCxToRx { chars := ['a', '\t', 'b'], render := [] } 1 + 1
        ≤ editorRowCxToRx { chars := ['a', '\t', 'b'], render := [] } 2
    ∧ editorRowCxToRx { chars := ['a', '\t', 'b'], render := [] } 2
        ≤ editorRowCxToRx { chars := ['a', '\t', 'b'], render := [] } 1 + kiloTabStop
    ∧ editorRowCxToRx { chars := ['a', '\t', 'b'], render := [] } 2 % kiloTabStop = 0 :=
  ⟨(cxToRx_monotone_and_tabstop _).1 1 2 (by decide),
   (cxToRx_monotone_and_tabstop _).2 1 (by decide) (by decide)⟩

/-- **C10**: evaluating the render loop of `editorUpdateRow` and the column
conversion in lockstep: the final render length starting from accumulator
`acc` equals `cxToRxAux` started at `acc.length`. -/
theorem foldl_renderStep_length (cs : List Char) :
    ∀ acc : List Char, (List.foldl renderStep acc cs).length = cxToRxAux cs acc.length := by
  induction cs with
  | nil => intro acc; rfl
  | cons c cs ih =>
      intro acc
      rw [List.foldl_cons, ih]
      simp only [cxToRxAux]
      congr 1
      unfold renderStep kiloTabStop
      split
      · have : acc.length % 8 < 8 := Nat.mod_lt _ (by omega)
        simp only [List.length_append, List.length_replicate]
        omega
      · simp

/-- **C10**: on any row kept up to date by `editorUpdateRow`, converting the
full content length through `editorRowCxToRx` yields exactly the rendered
size: `cx_to_rx(row, row.size) == row.rsize`. -/
theorem cxToRx_total_eq_rsize (row : Erow) :
    editorRowCxToRx (editorUpdateRow row) (editorUpdateRow row).size
      = (editorUpdateRow row).rsize := by
  show cxToRxAux ((editorUpdateRow row).chars.take (editorUpdateRow row).chars.length) 0 = _
  rw [List.take_length]
  show cxToRxAux row.chars 0 = (row.chars.foldl renderStep []).length
  rw [foldl_renderStep_length]
  rfl

/-! ## C1: the 3-line scenario -/

/-- **C1 (counterexample)**: on the loaded scenario file, converting content
column 2 of row 0 with `editorRowCxToRx` does NOT give 9 (it gives 8: the
rendered columns consumed by `'a'` and the tab are `0..7`). -/
theorem scenario_cxToRx_ne_nine :
    editorRowCxToRx (rowAt (editorOpenRows scenarioFile) 0) 2 ≠ 9 := by decide

/-- **C1 (amended)**: the scenario file loads to 3 rows; row 0 renders as
`'a'`, seven spaces, `'b'` (9 characters, `rsize = 9`), and
`cx_to_rx(0, 2) = 8`. -/
theorem scenario_row0_render_and_rx :
    (editorOpenRows scenarioFile).length = 3
    ∧ (rowAt (editorOpenRows scenarioFile) 0).render
        = ['a', ' ', ' ', ' ', ' ', ' ', ' ', ' ', 'b']
    ∧ (rowAt (editorOpenRows scenarioFile) 0).rsize = 9
    ∧ editorRowCxToRx (rowAt (editorOpenRows scenarioFile) 0) 2 = 8 := by decide

/-! ## C5 and C9: key decoding -/

/-- **C5**: the complete sequence `ESC [ 5 ~` decodes to PageUp; if the bytes
`ESC [ 5` arrive and the read of the terminating `~` times out the decoder
returns the bare escape, and the same holds for `ESC [ d` for every digit
`d` — an incomplete trailing sequence degrades to Escape, never to a shorter
valid key. -/
theorem decode_pageUp_and_timeout_escape :
    editorReadKey '\x1b' [some '[', some '5', some '~'] = EKey.pageUp
    ∧ editorReadKey '\x1b' [some '[', some '5', none] = EKey.char '\x1b'
    ∧ (∀ d : Char, '0' ≤ d → d ≤ '9' →
        editorReadKey '\x1b' [some '[', some d, none] = EKey.char '\x1b') := by
  refine ⟨by decide, by decide, ?_⟩
  intro d h1 h2
  simp [editorReadKey, readByte, h1, h2]

/-- C5 witness: the digit-timeout case at the concrete digit `'7'`. -/
theorem decode_pageUp_and_timeout_escape_witness :
    editorReadKey '\x1b' [some '[', some '7', none] = EKey.char '\x1b' :=
  decode_pageUp_and_timeout_escape.2.2 '7' (by decide) (by decide)

/-- **C9**: the Delete key is decoded (`ESC [ 3 ~` yields `DEL_KEY`) but
`editorProcessKeypress` binds it to no action: the entire editor state is
unchanged. -/
theorem delete_key_noop :
    editorReadKey '\x1b' [some '[', some '3', some '~'] = EKey.delKey
    ∧ ∀ s : EState, editorProcessKeypress EKey.delKey s = s :=
  ⟨by decide, fun _ => rfl⟩

/-! ## C6: file loading -/

theorem openRows_foldl_eq (ls : List (List Char)) :
    ∀ acc : List Erow,
      ls.foldl (fun rows line => editorAppendRow rows (stripTrailingNLCR line)) acc
        = acc ++ ls.map mkOpenRow := by
  induction ls with
  | nil => intro acc; simp
  | cons l ls ih =>
      intro acc
      rw [List.foldl_cons, ih]
      simp [editorAppendRow, mkOpenRow]

theorem rowAt_map_strip (ls : List (List Char)) :
    ∀ i : Nat, i < ls.length →
      (rowAt (ls.map mkOpenRow) i).chars = stripTrailingNLCR (ls.getD i []) := by
  induction ls with
  | nil => intro i h; simp at h
  | cons l ls ih =>
      intro i h
      cases i with
      | zero => rfl
      | succ j => exact ih j (by simpa using h)

/-- **C6**: loading a file produces one row per line, in file order, each
row's content being the source line with all trailing CR/LF stripped. -/
theorem open_strips_trailing_crlf (content : List Char) :
    (editorOpenRows content).length = (getLines content).length
    ∧ ∀ i : Nat, i < (getLines content).length →
        (rowAt (editorOpenRows content) i).chars
          = stripTrailingNLCR ((getLines content).getD i []) := by
  have hmap : editorOpenRows content = (getLines content).map mkOpenRow := by
    unfold editorOpenRows
    rw [openRows_foldl_eq]
    simp
  constructor
  · rw [hmap, List.length_map]
  · intro i hi
    rw [hmap]
    exact rowAt_map_strip _ i hi

/-- C6 witness: the CRLF-terminated line `"hi\r\n"` followed by an
unterminated chunk, checked at row 0. -/
theorem open_strips_trailing_crlf_witness :
    (rowAt (editorOpenRows ['h', 'i', '\r', '\n', 'x']) 0).chars
      = stripTrailingNLCR ((getLines ['h', 'i', '\r', '\n', 'x']).getD 0 []) :=
  (open_strips_trailing_crlf ['h', 'i', '\r', '\n', 'x']).2 0 (by decide)

/-! ## C7: MoveLeft -/

/-- `editorMoveCursor` written out: the pre-clamp `(cx, cy)` pair followed by
the clamp against the destination row. -/
theorem editorMoveCursor_eq (key : EKey) (s : EState) :
    editorMoveCursor key s
      = { s with
            cx := (if rowLen s.rows (moveCursorCxCy key s).2 < (moveCursorCxCy key s).1
                   then rowLen s.rows (moveCursorCxCy key s).2
                   else (moveCursorCxCy key s).1),
            cy := (moveCursorCxCy key s).2 } := rfl

/-- **C7**: on any valid cursor state, ArrowLeft decrements `cx` when
`cx > 0`; at `cx = 0` with `cy > 0` it wraps to the end of the previous row;
at `cx = 0, cy = 0` the state is unchanged. -/
theorem moveLeft_spec (s : EState) (hcy : s.cy ≤ s.rows.length)
    (hcx : s.cx ≤ rowLen s.rows s.cy) :
    editorMoveCursor EKey.arrowLeft s
      = if 0 < s.cx then { s with cx := s.cx - 1 }
        else if 0 < s.cy then
          { s with cx := (rowAt s.rows (s.cy - 1)).size, cy := s.cy - 1 }
        else s := by
  rw [editorMoveCursor_eq]
  rcases Nat.eq_zero_or_pos s.cx with h0 | h0
  · rcases Nat.eq_zero_or_pos s.cy with hy | hy
    · have hp : moveCursorCxCy EKey.arrowLeft s = (s.cx, s.cy) := by
        simp only [moveCursorCxCy]
        rw [if_neg (show ¬ s.cx ≠ 0 by omega), if_neg (show ¬ 0 < s.cy by omega)]
      rw [hp, if_neg (show ¬ 0 < s.cx by omega), if_neg (show ¬ 0 < s.cy by omega)]
      dsimp only
      rw [if_neg (show ¬ rowLen s.rows s.cy < s.cx by omega)]
    · have hp : moveCursorCxCy EKey.arrowLeft s
          = ((rowAt s.rows (s.cy - 1)).size, s.cy - 1) := by
        simp only [moveCursorCxCy]
        rw [if_neg (show ¬ s.cx ≠ 0 by omega), if_pos hy]
      rw [hp, if_neg (show ¬ 0 < s.cx by omega), if_pos hy]
      dsimp only
      have hlt : s.cy - 1 < s.rows.length := by omega
      have hrl : rowLen s.rows (s.cy - 1) = (rowAt s.rows (s.cy - 1)).size := by
        unfold rowLen; rw [if_pos hlt]
      rw [hrl, if_neg (show ¬ (rowAt s.rows (s.cy - 1)).size
            < (rowAt s.rows (s.cy - 1)).size by omega)]
  · have hp : moveCursorCxCy EKey.arrowLeft s = (s.cx - 1, s.cy) := by
      simp only [moveCursorCxCy]
      rw [if_pos (show s.cx ≠ 0 by omega)]
    rw [hp, if_pos h0]
    dsimp only
    rw [if_neg (show ¬ rowLen s.rows s.cy < s.cx - 1 by omega)]

/-- C7 witness: at `cx = 0, cy = 1` over the rows `["ab", ""]`, ArrowLeft
wraps to `cy = 0, cx = 2`. -/
theorem moveLeft_spec_witness :
    editorMoveCursor EKey.arrowLeft wrapState
      = if 0 < wrapState.cx then { wrapState with cx := wrapState.cx - 1 }
        else if 0 < wrapState.cy then
          { wrapState with cx := (rowAt wrapState.rows (wrapState.cy - 1)).size,
                           cy := wrapState.cy - 1 }
        else wrapState :=
  moveLeft_spec wrapState (by decide) (by decide)

/-! ## C8: PageUp/PageDown -/

theorem moveRepeat_eq_iterate (k : EKey) :
    ∀ (n : Nat) (s : EState), moveRepeat k n s = (editorMoveCursor k)^[n] s := by
  intro n
  induction n with
  | zero => intro s; rfl
  | succ m ih =>
      intro s
      rw [Function.iterate_succ_apply]
      exact ih (editorMoveCursor k s)

/-- **C8**: PageUp snaps `cy` to `row_offset` and then applies the per-line
ArrowUp transition `rows_visible` times; PageDown snaps `cy` to
`row_offset + rows_visible - 1` clamped to `row_count` and applies ArrowDown
`rows_visible` times (so column re-clamping is exactly that of single-line
moves). -/
theorem page_keys_iterate_arrows (s : EState) (h : 1 ≤ s.screenRows) :
    editorProcessKeypress EKey.pageUp s
      = (editorMoveCursor EKey.arrowUp)^[s.screenRows] { s with cy := s.rowoff }
    ∧ editorProcessKeypress EKey.pageDown s
      = (editorMoveCursor EKey.arrowDown)^[s.screenRows]
          { s with cy := min (s.rowoff + s.screenRows - 1) s.rows.length } := by
  constructor
  · exact moveRepeat_eq_iterate EKey.arrowUp s.screenRows { s with cy := s.rowoff }
  · have hcy : (if s.rows.length < s.rowoff + s.screenRows - 1 then s.rows.length
                else s.rowoff + s.screenRows - 1)
        = min (s.rowoff + s.screenRows - 1) s.rows.length := by
      rw [Nat.min_def]
      split_ifs <;> omega
    calc editorProcessKeypress EKey.pageDown s
        = moveRepeat EKey.arrowDown s.screenRows
            { s with cy := if s.rows.length < s.rowoff + s.screenRows - 1
                           then s.rows.length else s.rowoff + s.screenRows - 1 } := rfl
      _ = _ := by rw [hcy, moveRepeat_eq_iterate]

/-- C8 witness: the page keys at the concrete started editor state. -/
theorem page_keys_iterate_arrows_witness :
    editorProcessKeypress EKey.pageUp demoState
      = (editorMoveCursor EKey.arrowUp)^[demoState.screenRows]
          { demoState with cy := demoState.rowoff }
    ∧ editorProcessKeypress EKey.pageDown demoState
      = (editorMoveCursor EKey.arrowDown)^[demoState.screenRows]
          { demoState with
              cy := min (demoState.rowoff + demoState.screenRows - 1)
                      demoState.rows.length } :=
  page_keys_iterate_arrows demoState (by decide)

/-! ## C3: the scroll invariant -/

/-- **C3**: for any valid cursor position and a viewport of at least one row
and one column, after `editorScroll` the cursor row lies inside
`[row_offset, row_offset + rows_visible)` and the recomputed rendered column
lies inside `[col_offset, col_offset + cols_visible)`. -/
theorem scroll_keeps_cursor_visible (s : EState) (hR : 1 ≤ s.screenRows)
    (hC : 1 ≤ s.screenCols) (hcy : s.cy ≤ s.rows.length)
    (hcx : s.cx ≤ rowLen s.rows s.cy) :
    (editorScroll s).rowoff ≤ (editorScroll s).cy
    ∧ (editorScroll s).cy < (editorScroll s).rowoff + (editorScroll s).screenRows
    ∧ (editorScroll s).coloff ≤ (editorScroll s).rx
    ∧ (editorScroll s).rx < (editorScroll s).coloff + (editorScroll s).screenCols := by
  show scrollRowoff s ≤ s.cy ∧ s.cy < scrollRowoff s + s.screenRows
    ∧ scrollColoff s ≤ scrollRx s ∧ scrollRx s < scrollColoff s + s.screenCols
  simp only [scrollRowoff, scrollColoff]
  split_ifs <;> omega

/-- C3 witness: the scroll invariant at the concrete started editor state. -/
theorem scroll_keeps_cursor_visible_witness :
    (editorScroll demoState).rowoff ≤ (editorScroll demoState).cy
    ∧ (editorScroll demoState).cy
        < (editorScroll demoState).rowoff + (editorScroll demoState).screenRows
    ∧ (editorScroll demoState).coloff ≤ (editorScroll demoState).rx
    ∧ (editorScroll demoState).rx
        < (editorScroll demoState).coloff + (editorScroll demoState).screenCols :=
  scroll_keeps_cursor_visible demoState (by decide) (by decide) (by decide) (by decide)

/-! ## C2: the cursor-clamp invariant over the session loop -/

theorem mc_rows (k : EKey) (s : EState) : (editorMoveCursor k s).rows = s.rows := rfl

theorem mc_screenRows (k : EKey) (s : EState) :
    (editorMoveCursor k s).screenRows = s.screenRows := rfl

theorem mc_cy_le (k : EKey) (s : EState) (h : s.cy ≤ s.rows.length) :
    (editorMoveCursor k s).cy ≤ s.rows.length := by
  show (moveCursorCxCy k s).2 ≤ s.rows.length
  cases k <;> dsimp only [moveCursorCxCy] <;>
    first
      | omega
      | (split_ifs <;> dsimp only <;> omega)

theorem mc_cx_clamped (k : EKey) (s : EState) :
    (editorMoveCursor k s).cx
      ≤ rowLen (editorMoveCursor k s).rows (editorMoveCursor k s).cy := by
  show (if rowLen s.rows (moveCursorCxCy k s).2 < (moveCursorCxCy k s).1
        then rowLen s.rows (moveCursorCxCy k s).2 else (moveCursorCxCy k s).1)
      ≤ rowLen s.rows (moveCursorCxCy k s).2
  split_ifs <;> omega

theorem mc_ok (k : EKey) (s : EState) (h : s.cy ≤ s.rows.length) :
    cursorOK (editorMoveCursor k s) := by
  refine ⟨?_, mc_cx_clamped k s⟩
  rw [mc_rows]
  exact mc_cy_le k s h

theorem mr_rows (k : EKey) :
    ∀ (n : Nat) (s : EState), (moveRepeat k n s).rows = s.rows := by
  intro n
  induction n with
  | zero => intro s; rfl
  | succ m ih =>
      intro s
      show (moveRepeat k m (editorMoveCursor k s)).rows = s.rows
      rw [ih, mc_rows]

theorem mr_screenRows (k : EKey) :
    ∀ (n : Nat) (s : EState), (moveRepeat k n s).screenRows = s.screenRows := by
  intro n
  induction n with
  | zero => intro s; rfl
  | succ m ih =>
      intro s
      show (moveRepeat k m (editorMoveCursor k s)).screenRows = s.screenRows
      rw [ih, mc_screenRows]

theorem mr_ok (k : EKey) :
    ∀ (n : Nat) (s : EState), cursorOK s → cursorOK (moveRepeat k n s) := by
  intro n
  induction n with
  | zero => intro s h; exact h
  | succ m ih =>
      intro s h
      show cursorOK (moveRepeat k m (editorMoveCursor k s))
      exact ih _ (mc_ok k s h.1)

theorem mr_ok_of_pos (k : EKey) (n : Nat) (s : EState) (hn : 1 ≤ n)
    (h : s.cy ≤ s.rows.length) : cursorOK (moveRepeat k n s) := by
  obtain ⟨m, rfl⟩ : ∃ m, n = m + 1 := ⟨n - 1, by omega⟩
  show cursorOK (moveRepeat k m (editorMoveCursor k s))
  exact mr_ok k m _ (mc_ok k s h)

theorem pk_ok (k : EKey) (s : EState) (h : cursorOK s)
    (hro : s.rowoff ≤ s.rows.length) (hR : 1 ≤ s.screenRows) :
    cursorOK (editorProcessKeypress k s) := by
  cases k with
  | homeKey => exact ⟨h.1, Nat.zero_le _⟩
  | endKey =>
      show cursorOK
        (if s.cy < s.rows.length then { s with cx := (rowAt s.rows s.cy).size } else s)
      split_ifs with hcylt
      · refine ⟨h.1, ?_⟩
        show (rowAt s.rows s.cy).size ≤ rowLen s.rows s.cy
        unfold rowLen
        rw [if_pos hcylt]
      · exact h
  | pageUp => exact mr_ok_of_pos _ _ _ hR hro
  | pageDown =>
      refine mr_ok_of_pos _ _ _ hR ?_
      show (if s.rows.length < s.rowoff + s.screenRows - 1 then s.rows.length
            else s.rowoff + s.screenRows - 1) ≤ s.rows.length
      split_ifs <;> omega
  | arrowUp => exact mc_ok _ _ h.1
  | arrowDown => exact mc_ok _ _ h.1
  | arrowLeft => exact mc_ok _ _ h.1
  | arrowRight => exact mc_ok _ _ h.1
  | delKey => exact h
  | char c => exact h

theorem scroll_ok (s : EState) (h : cursorOK s) : cursorOK (editorScroll s) := h

theorem scroll_rowoff_le_cy (s : EState) (hR : 1 ≤ s.screenRows) :
    (editorScroll s).rowoff ≤ s.cy := by
  show scrollRowoff s ≤ s.cy
  simp only [scrollRowoff]
  split_ifs <;> omega

theorem pk_screenRows (k : EKey) (s : EState) :
    (editorProcessKeypress k s).screenRows = s.screenRows := by
  cases k with
  | endKey =>
      show (if s.cy < s.rows.length then { s with cx := (rowAt s.rows s.cy).size }
            else s).screenRows = s.screenRows
      split_ifs <;> rfl
  | pageUp => exact mr_screenRows _ _ _
  | pageDown => exact mr_screenRows _ _ _
  | _ => rfl

theorem pk_rows (k : EKey) (s : EState) :
    (editorProcessKeypress k s).rows = s.rows := by
  cases k with
  | endKey =>
      show (if s.cy < s.rows.length then { s with cx := (rowAt s.rows s.cy).size }
            else s).rows = s.rows
      split_ifs <;> rfl
  | pageUp => exact mr_rows _ _ _
  | pageDown => exact mr_rows _ _ _
  | _ => rfl

theorem step_ok (s : EState) (k : EKey) (h : cursorOK s) (hR : 1 ≤ s.screenRows) :
    cursorOK (sessionStep s k) := by
  have h2 : (editorScroll s).rowoff ≤ (editorScroll s).rows.length := by
    have h3 : (editorScroll s).rows = s.rows := rfl
    rw [h3]
    exact Nat.le_trans (scroll_rowoff_le_cy s hR) h.1
  exact pk_ok k _ (scroll_ok s h) h2 hR

theorem run_ok : ∀ (ks : List EKey) (s : EState), cursorOK s → 1 ≤ s.screenRows →
    cursorOK (runSession s ks) ∧ (runSession s ks).rows = s.rows := by
  intro ks
  induction ks with
  | nil => intro s h _; exact ⟨h, rfl⟩
  | cons k ks ih =>
      intro s h hR
      have hsr : (sessionStep s k).screenRows = s.screenRows :=
        pk_screenRows k (editorScroll s)
      have hrows : (sessionStep s k).rows = s.rows := pk_rows k (editorScroll s)
      have hrec := ih (sessionStep s k) (step_ok s k h hR) (by rw [hsr]; exact hR)
      refine ⟨hrec.1, ?_⟩
      show (runSession (sessionStep s k) ks).rows = s.rows
      rw [hrec.2, hrows]

/-- **C2 (amended)**: from any initial state with `cx = 0`, `cy = 0` and a
viewport of at least one visible row, every finite sequence of navigation
commands processed by the session loop (scroll, then keypress) leaves the
cursor with `cy ≤ row_count` and `cx ≤ row_len(cy)` (which is `0` when `cy`
equals the row count); the row store is unchanged throughout. -/
theorem cursor_clamp_invariant (s0 : EState) (hx : s0.cx = 0) (hy : s0.cy = 0)
    (hR : 1 ≤ s0.screenRows) (ks : List EKey)
    (hnav : ∀ k ∈ ks, isNavKey k = true) :
    (runSession s0 ks).cy ≤ (runSession s0 ks).rows.length
    ∧ (runSession s0 ks).cx
        ≤ rowLen (runSession s0 ks).rows (runSession s0 ks).cy
    ∧ (runSession s0 ks).rows = s0.rows := by
  have h0 : cursorOK s0 :=
    ⟨by rw [hy]; exact Nat.zero_le _, by rw [hx]; exact Nat.zero_le _⟩
  obtain ⟨hok, hrows⟩ := run_ok ks s0 h0 hR
  exact ⟨hok.1, hok.2, hrows⟩

/-- **C2 (counterexample)**: with zero visible rows (a 2-row terminal after
the two reserved lines) the claim fails as stated: from `cx = cy = 0` on an
empty file, one PageUp yields `cy = 1 > row_count = 0`, because
`editorScroll` first sets `rowoff = cy - screenRows + 1 = 1` and PageUp snaps
`cy` to `rowoff`. -/
theorem cursor_clamp_fails_when_no_visible_rows :
    (initState [] 0 0).cx = 0 ∧ (initState [] 0 0).cy = 0
    ∧ isNavKey EKey.pageUp = true
    ∧ ¬ ((runSession (initState [] 0 0) [EKey.pageUp]).cy
          ≤ (runSession (initState [] 0 0) [EKey.pageUp]).rows.length) := by decide

/-- C2 witness: the invariant at the concrete started editor state under a
PageDown followed by an ArrowRight. -/
theorem cursor_clamp_invariant_witness :
    (runSession demoState [EKey.pageDown, EKey.arrowRight]).cy
        ≤ (runSession demoState [EKey.pageDown, EKey.arrowRight]).rows.length
    ∧ (runSession demoState [EKey.pageDown, EKey.arrowRight]).cx
        ≤ rowLen (runSession demoState [EKey.pageDown, EKey.arrowRight]).rows
            (runSession demoState [EKey.pageDown, EKey.arrowRight]).cy
    ∧ (runSession demoState [EKey.pageDown, EKey.arrowRight]).rows
        = demoState.rows :=
  cursor_clamp_invariant demoState rfl rfl (by decide)
    [EKey.pageDown, EKey.arrowRight] (by decide)

end Kilo
